import Mathlib

/-!
Verification of the `ag_contrib` configuration tool (autograder-cli).

This file gives a shallow embedding, in Lean, of the parts of the tool's
source that the checked properties are about:

* `src/ag_contrib/config/time_processing.py` — duration parsing and
  serialization (`validate_duration`, `serialize_duration`);
* `src/ag_contrib/config/models.py` — the test-case `do_repeat` expansion,
  `apply_substitutions`, `apply_points_substitution`;
* `src/ag_contrib/config/load_project.py` — `_process_deadline`,
  `_process_email_receipts`;
* `src/ag_contrib/config/save_project.py` — `_make_legacy_project_api_dict`
  and the request traffic of `_save_expected_student_files` /
  `_save_instructor_files`.

Python machine-level details are embedded as follows: Python `int` is `Int`
(arbitrary precision in Python, so no wrap-around), `datetime.timedelta` is
its normalized total number of seconds, Python `//` and `%` (floor division
and its remainder; with the positive divisors used here these agree with
Lean's `/` and `%` on `Int`, i.e. `Int.ediv`/`Int.emod`), raised exceptions
are `Except.error`.
-/

namespace AGContrib

/-! ## Python character classes

`\s` and `\d` from Python's `re` module (ASCII view; the config strings in
question are ASCII). -/

def isPySpace (c : Char) : Bool :=
  c = ' ' || c = '\t' || c = '\n' || c = '\r' || c = '\x0b' || c = '\x0c'

def isPyDigit (c : Char) : Bool :=
  '0' ≤ c && c ≤ '9'

def digitToNat (c : Char) : Nat :=
  c.toNat - 48

def digitChar (d : Nat) : Char :=
  Char.ofNat (48 + d)

/-- Value of a big-endian decimal digit string, as Python's `int(...)`. -/
def digitsToNat (ds : List Char) : Nat :=
  ds.foldl (fun acc c => acc * 10 + digitToNat c) 0

/-- Little-endian decimal digits of a natural number (least significant
first), as produced by repeated division by 10.  The `fuel` argument only
makes the recursion structural; any `fuel` with `n < 10 ^ fuel` gives the
digits. -/
def natToDigitsRevAux (fuel n : Nat) : List Char :=
  match fuel with
  | 0 => []
  | fuel + 1 =>
    if n < 10 then [digitChar n]
    else digitChar (n % 10) :: natToDigitsRevAux fuel (n / 10)

def natToDigitsRev (n : Nat) : List Char :=
  natToDigitsRevAux (n + 1) n

/-- Decimal representation of a natural number, as Python's `str(...)`. -/
def natToDigits (n : Nat) : List Char :=
  (natToDigitsRev n).reverse

def natToString (n : Nat) : String :=
  ⟨natToDigits n⟩

/-- Python `str(...)` on an `int`. -/
def intToString (n : Int) : String :=
  if n < 0 then "-" ++ natToString (-n).toNat else natToString n.toNat

/-! ## `datetime.timedelta`

A Python `timedelta` with zero microseconds is determined by its total
number of seconds; `.days` and `.seconds` are the normalized accessors
(`days` is floor division, `seconds` the nonnegative remainder). -/

structure PyTimedelta where
  total_seconds : Int
deriving DecidableEq, Repr

def PyTimedelta.days (t : PyTimedelta) : Int :=
  t.total_seconds / 86400

def PyTimedelta.seconds (t : PyTimedelta) : Int :=
  t.total_seconds % 86400

/-- `datetime.timedelta(days=d, hours=h, minutes=m)`. -/
def PyTimedelta.ofDHM (days hours minutes : Int) : PyTimedelta :=
  ⟨((days * 24 + hours) * 60 + minutes) * 60⟩

/-! ## The duration regex

`validate_duration` matches its input against

    \s*(((?P<days>\d+)\s*d)?)\s*(((?P<hours>\d+)\s*h)?)\s*(((?P<minutes>\d+)\s*m)?)

with `re.match` (anchored at the start only, so a prefix match suffices).
The functions below are the deterministic equivalent of that match: each
optional group is taken greedily whenever it can match at the current
position, which agrees with backtracking regex semantics here because
everything after each group is optional. -/

/-- `\s*`: drop the longest all-whitespace prefix. -/
def skipPySpace : List Char → List Char
  | [] => []
  | c :: cs => if isPySpace c then skipPySpace cs else c :: cs

/-- Longest digit prefix and the remainder (`\d+` greedy). -/
def spanDigits : List Char → List Char × List Char
  | [] => ([], [])
  | c :: cs =>
    if isPyDigit c then
      let p := spanDigits cs
      (c :: p.1, p.2)
    else ([], c :: cs)

/-- One group `((?P<g>\d+)\s*u)?`: match `\d+\s*u` at the current position
if possible (`some (value, rest)`), otherwise fail without consuming. -/
def matchNumUnit (u : Char) (cs : List Char) : Option (Nat × List Char) :=
  let p := spanDigits cs
  if p.1.isEmpty then none
  else
    match skipPySpace p.2 with
    | [] => none
    | c :: rest => if c = u then some (digitsToNat p.1, rest) else none

/-- The optional group: on failure the position is unchanged and the
captured value defaults to `0` (the code reads `groupdict(0)`). -/
def matchOptNumUnit (u : Char) (cs : List Char) : Nat × List Char :=
  match matchNumUnit u cs with
  | some (n, rest) => (n, rest)
  | none => (0, cs)

/-- `\s*(((?P<minutes>\d+)\s*m)?)`, the last stage of the pattern. -/
def matchMinutes (cs : List Char) : Nat :=
  (matchOptNumUnit 'm' (skipPySpace cs)).1

/-- `\s*(((?P<hours>\d+)\s*h)?)` followed by the minutes stage. -/
def matchHM (cs : List Char) : Nat × Nat :=
  ((matchOptNumUnit 'h' (skipPySpace cs)).1,
   matchMinutes (matchOptNumUnit 'h' (skipPySpace cs)).2)

/-- Group extraction of the duration regex: the `days`/`hours`/`minutes`
captures (each defaulted to 0 when its group did not participate, as
`groupdict(0)` does). -/
def durationMatchGroups (cs : List Char) : Nat × Nat × Nat :=
  ((matchOptNumUnit 'd' (skipPySpace cs)).1,
   matchHM (matchOptNumUnit 'd' (skipPySpace cs)).2)

/-- `re.match` on the duration pattern.  Every group of the pattern is
optional, so the match always succeeds (at worst it matches the empty
prefix); the `some` here is exactly that fact about the regex. -/
def reMatchDuration (cs : List Char) : Option (Nat × Nat × Nat) :=
  some (durationMatchGroups cs)

/-- `time_processing.validate_duration` on a string input.  (The
`isinstance(value, datetime.timedelta)` passthrough and the non-string
branch concern other input types and are outside this embedding.)  The
`match is None` check and the `groupdict` emptiness check of the source
are kept; note that `reMatchDuration` never returns `none` and a
`groupdict` of this pattern always has the three keys, so neither check
can fire. -/
def validate_duration (value : String) : Except String PyTimedelta :=
  match reMatchDuration value.data with
  | none => .error "Expected a time string in the format XdXhXm"
  | some (d, h, m) => .ok (PyTimedelta.ofDHM d h m)

/-- `time_processing.serialize_duration`. -/
def serialize_duration (value : PyTimedelta) : String :=
  let days := value.days
  let seconds := value.seconds
  let hours := seconds / 3600
  let seconds2 := seconds % 3600
  let minutes := seconds2 / 60
  (if days ≠ 0 then intToString days ++ "d" else "")
    ++ (if hours ≠ 0 then intToString hours ++ "h" else "")
    ++ (if minutes ≠ 0 then intToString minutes ++ "m" else "")

example : validate_duration "1d2h3m" = .ok (PyTimedelta.ofDHM 1 2 3) := rfl

example : validate_duration "" = .ok ⟨0⟩ := rfl

example : validate_duration "2h" = .ok (PyTimedelta.ofDHM 0 2 0) := rfl

example : validate_duration " 10d  30 m" = .ok (PyTimedelta.ofDHM 10 0 30) := rfl

example : validate_duration "abc" = .ok ⟨0⟩ := rfl

example : serialize_duration ⟨93780⟩ = "1d2h3m" := rfl

example : serialize_duration ⟨0⟩ = "" := rfl

/-! ## The language of the duration pattern

A string matched by `(\d+d)?(\d+h)?(\d+m)?` with optional internal
whitespace decomposes into three optional components, each a nonempty
digit string followed by optional whitespace and its unit letter,
separated by optional whitespace. -/

/-- One optional component: `none` when absent, otherwise the digit
string and the whitespace between the digits and the unit letter. -/
def renderComp (u : Char) : Option (List Char × List Char) → List Char
  | none => []
  | some p => p.1 ++ (p.2 ++ [u])

/-- The number captured by a component (0 when absent). -/
def compVal : Option (List Char × List Char) → Nat
  | none => 0
  | some p => digitsToNat p.1

/-- Well-formedness of a component: nonempty digits, whitespace filler. -/
def GoodComp : Option (List Char × List Char) → Prop
  | none => True
  | some p => p.1 ≠ [] ∧ (∀ c ∈ p.1, isPyDigit c = true) ∧ (∀ c ∈ p.2, isPySpace c = true)

def HeadNotDigit : List Char → Prop
  | [] => True
  | c :: _ => isPyDigit c = false

def HeadNotSpace : List Char → Prop
  | [] => True
  | c :: _ => isPySpace c = false

lemma isPyDigit_eq_false_of_isPySpace {c : Char} (h : isPySpace c = true) :
    isPyDigit c = false := by
  simp only [isPySpace, Bool.or_eq_true, decide_eq_true_eq] at h
  rcases h with ((((h | h) | h) | h) | h) | h <;> subst h <;> decide

lemma isPySpace_eq_false_of_isPyDigit {c : Char} (h : isPyDigit c = true) :
    isPySpace c = false := by
  by_cases hs : isPySpace c = true
  · rw [isPyDigit_eq_false_of_isPySpace hs] at h
    exact absurd h (by decide)
  · exact Bool.eq_false_iff.mpr hs

lemma skipPySpace_append {w : List Char} (hw : ∀ c ∈ w, isPySpace c = true)
    (l : List Char) : skipPySpace (w ++ l) = skipPySpace l := by
  induction w with
  | nil => rfl
  | cons c cs ih =>
    have hc : isPySpace c = true := hw c (by simp)
    simp only [List.cons_append, skipPySpace, hc, if_true]
    exact ih fun x hx => hw x (by simp [hx])

lemma skipPySpace_of_headNotSpace {l : List Char} (h : HeadNotSpace l) :
    skipPySpace l = l := by
  cases l with
  | nil => rfl
  | cons c cs =>
    have hc : isPySpace c = false := h
    simp [skipPySpace, hc]

lemma spanDigits_append {ds : List Char} (hds : ∀ c ∈ ds, isPyDigit c = true)
    (l : List Char) (hl : HeadNotDigit l) : spanDigits (ds ++ l) = (ds, l) := by
  induction ds with
  | nil =>
    cases l with
    | nil => rfl
    | cons c cs =>
      have hc : isPyDigit c = false := hl
      simp [spanDigits, hc]
  | cons c cs ih =>
    have hc : isPyDigit c = true := hds c (by simp)
    simp only [List.cons_append, spanDigits, hc, if_true, List.append_eq]
    rw [ih fun x hx => hds x (by simp [hx])]

lemma matchNumUnit_hit {u : Char} {ds wu rest : List Char}
    (hne : ds ≠ []) (hds : ∀ c ∈ ds, isPyDigit c = true)
    (hwu : ∀ c ∈ wu, isPySpace c = true)
    (hus : isPySpace u = false) (hud : isPyDigit u = false) :
    matchNumUnit u (ds ++ (wu ++ (u :: rest))) = some (digitsToNat ds, rest) := by
  have h1 : HeadNotDigit (wu ++ (u :: rest)) := by
    cases wu with
    | nil => exact hud
    | cons c cs => exact isPyDigit_eq_false_of_isPySpace (hwu c (by simp))
  have hdse : ds.isEmpty = false := by
    cases ds with
    | nil => exact absurd rfl hne
    | cons c cs => rfl
  simp only [matchNumUnit, spanDigits_append hds _ h1, hdse,
    skipPySpace_append hwu, skipPySpace_of_headNotSpace (show HeadNotSpace (u :: rest) from hus)]
  simp

lemma matchNumUnit_miss_unit {u v : Char} {ds wu rest : List Char}
    (hne : ds ≠ []) (hds : ∀ c ∈ ds, isPyDigit c = true)
    (hwu : ∀ c ∈ wu, isPySpace c = true)
    (hvs : isPySpace v = false) (hvd : isPyDigit v = false) (hvu : v ≠ u) :
    matchNumUnit u (ds ++ (wu ++ (v :: rest))) = none := by
  have h1 : HeadNotDigit (wu ++ (v :: rest)) := by
    cases wu with
    | nil => exact hvd
    | cons c cs => exact isPyDigit_eq_false_of_isPySpace (hwu c (by simp))
  have hdse : ds.isEmpty = false := by
    cases ds with
    | nil => exact absurd rfl hne
    | cons c cs => rfl
  simp only [matchNumUnit, spanDigits_append hds _ h1, hdse,
    skipPySpace_append hwu, skipPySpace_of_headNotSpace (show HeadNotSpace (v :: rest) from hvs)]
  simp [hvu]

lemma matchNumUnit_miss_head {u : Char} {l : List Char} (hl : HeadNotDigit l) :
    matchNumUnit u l = none := by
  cases l with
  | nil => rfl
  | cons c cs =>
    have hc : isPyDigit c = false := hl
    simp [matchNumUnit, spanDigits, hc]

lemma matchOptNumUnit_of_some {u : Char} {cs rest : List Char} {n : Nat}
    (h : matchNumUnit u cs = some (n, rest)) : matchOptNumUnit u cs = (n, rest) := by
  simp [matchOptNumUnit, h]

lemma matchOptNumUnit_of_none {u : Char} {cs : List Char}
    (h : matchNumUnit u cs = none) : matchOptNumUnit u cs = (0, cs) := by
  simp [matchOptNumUnit, h]

lemma headNotSpace_of_renderSome {p : List Char × List Char} {u : Char} (t : List Char)
    (hne : p.1 ≠ []) (hds : ∀ c ∈ p.1, isPyDigit c = true) :
    HeadNotSpace (p.1 ++ (p.2 ++ (u :: t))) := by
  cases h1 : p.1 with
  | nil => exact absurd h1 hne
  | cons c cs =>
    have hc : isPyDigit c = true := hds c (by simp [h1])
    simpa [HeadNotSpace] using isPySpace_eq_false_of_isPyDigit hc

lemma matchMinutes_render {w : List Char} (hw : ∀ c ∈ w, isPySpace c = true)
    {mc : Option (List Char × List Char)} (hm : GoodComp mc) :
    matchMinutes (w ++ renderComp 'm' mc) = compVal mc := by
  cases mc with
  | none =>
    show (matchOptNumUnit 'm' (skipPySpace (w ++ renderComp 'm' none))).1 = 0
    rw [show renderComp 'm' none = [] from rfl, skipPySpace_append hw]
    rfl
  | some p =>
    obtain ⟨hne, hds, hwu⟩ := hm
    show (matchOptNumUnit 'm' (skipPySpace (w ++ (p.1 ++ (p.2 ++ ('m' :: [])))))).1
      = digitsToNat p.1
    rw [skipPySpace_append hw,
      skipPySpace_of_headNotSpace (headNotSpace_of_renderSome [] hne hds),
      matchOptNumUnit_of_some (matchNumUnit_hit hne hds hwu (by decide) (by decide))]

lemma skipPySpace_all {w : List Char} (hw : ∀ c ∈ w, isPySpace c = true) :
    skipPySpace w = [] := by
  have h := skipPySpace_append hw []
  simpa using h

lemma matchHM_render {w1 w2 : List Char}
    (hw1 : ∀ c ∈ w1, isPySpace c = true) (hw2 : ∀ c ∈ w2, isPySpace c = true)
    {hc mc : Option (List Char × List Char)} (hh : GoodComp hc) (hm : GoodComp mc) :
    matchHM (w1 ++ (renderComp 'h' hc ++ (w2 ++ renderComp 'm' mc)))
      = (compVal hc, compVal mc) := by
  cases hc with
  | some p =>
    obtain ⟨hne, hds, hwu⟩ := hh
    have hshape : renderComp 'h' (some p) ++ (w2 ++ renderComp 'm' mc)
        = p.1 ++ (p.2 ++ ('h' :: (w2 ++ renderComp 'm' mc))) := by
      simp [renderComp, List.append_assoc]
    rw [hshape, matchHM, skipPySpace_append hw1,
      skipPySpace_of_headNotSpace (headNotSpace_of_renderSome _ hne hds),
      matchOptNumUnit_of_some (matchNumUnit_hit hne hds hwu (by decide) (by decide)),
      matchMinutes_render hw2 hm]
    rfl
  | none =>
    cases mc with
    | none =>
      have hskip : skipPySpace (w1 ++ (renderComp 'h' none ++ (w2 ++ renderComp 'm' none)))
          = [] := by
        rw [show renderComp 'h' none = [] from rfl, show renderComp 'm' none = [] from rfl,
          List.nil_append, List.append_nil, skipPySpace_append hw1]
        exact skipPySpace_all hw2
      rw [matchHM, hskip]
      rfl
    | some q =>
      obtain ⟨hne, hds, hwu⟩ := hm
      have hskip : skipPySpace (w1 ++ (renderComp 'h' none ++ (w2 ++ renderComp 'm' (some q))))
          = q.1 ++ (q.2 ++ ('m' :: [])) := by
        rw [show renderComp 'h' none = [] from rfl, List.nil_append,
          skipPySpace_append hw1, skipPySpace_append hw2]
        exact skipPySpace_of_headNotSpace (headNotSpace_of_renderSome [] hne hds)
      rw [matchHM, hskip,
        matchOptNumUnit_of_none
          (matchNumUnit_miss_unit hne hds hwu (by decide) (by decide) (by decide))]
      show (0, matchMinutes (q.1 ++ (q.2 ++ ('m' :: [])))) = (compVal none, compVal (some q))
      rw [show q.1 ++ (q.2 ++ ('m' :: [])) = ([] : List Char) ++ renderComp 'm' (some q) by
          simp [renderComp],
        @matchMinutes_render [] (by simp) (some q) ⟨hne, hds, hwu⟩]
      rfl

lemma durationMatchGroups_render {w0 w1 w2 : List Char}
    (hw0 : ∀ c ∈ w0, isPySpace c = true) (hw1 : ∀ c ∈ w1, isPySpace c = true)
    (hw2 : ∀ c ∈ w2, isPySpace c = true)
    {dc hc mc : Option (List Char × List Char)}
    (hd : GoodComp dc) (hh : GoodComp hc) (hm : GoodComp mc) :
    durationMatchGroups
        (w0 ++ (renderComp 'd' dc ++ (w1 ++ (renderComp 'h' hc ++ (w2 ++ renderComp 'm' mc)))))
      = (compVal dc, compVal hc, compVal mc) := by
  cases dc with
  | some p =>
    obtain ⟨hne, hds, hwu⟩ := hd
    have hshape : renderComp 'd' (some p)
          ++ (w1 ++ (renderComp 'h' hc ++ (w2 ++ renderComp 'm' mc)))
        = p.1 ++ (p.2 ++ ('d' :: (w1 ++ (renderComp 'h' hc ++ (w2 ++ renderComp 'm' mc))))) := by
      simp [renderComp, List.append_assoc]
    rw [hshape, durationMatchGroups, skipPySpace_append hw0,
      skipPySpace_of_headNotSpace (headNotSpace_of_renderSome _ hne hds),
      matchOptNumUnit_of_some (matchNumUnit_hit hne hds hwu (by decide) (by decide)),
      matchHM_render hw1 hw2 hh hm]
    rfl
  | none =>
    cases hc with
    | some q =>
      obtain ⟨hne, hds, hwu⟩ := hh
      have hskip : skipPySpace
            (w0 ++ (renderComp 'd' none ++ (w1 ++ (renderComp 'h' (some q) ++ (w2 ++ renderComp 'm' mc)))))
          = q.1 ++ (q.2 ++ ('h' :: (w2 ++ renderComp 'm' mc))) := by
        rw [show renderComp 'd' none = [] from rfl, List.nil_append,
          skipPySpace_append hw0, skipPySpace_append hw1,
          show renderComp 'h' (some q) ++ (w2 ++ renderComp 'm' mc)
              = q.1 ++ (q.2 ++ ('h' :: (w2 ++ renderComp 'm' mc))) by
            simp [renderComp, List.append_assoc]]
        exact skipPySpace_of_headNotSpace (headNotSpace_of_renderSome _ hne hds)
      rw [durationMatchGroups, hskip,
        matchOptNumUnit_of_none
          (matchNumUnit_miss_unit hne hds hwu (by decide) (by decide) (by decide))]
      have hrest := @matchHM_render [] w2 (by simp) hw2 (some q) mc ⟨hne, hds, hwu⟩ hm
      rw [show ([] : List Char) ++ (renderComp 'h' (some q) ++ (w2 ++ renderComp 'm' mc))
          = q.1 ++ (q.2 ++ ('h' :: (w2 ++ renderComp 'm' mc))) by
            simp [renderComp, List.append_assoc]] at hrest
      show (0, matchHM (q.1 ++ (q.2 ++ ('h' :: (w2 ++ renderComp 'm' mc)))))
        = (compVal none, compVal (some q), compVal mc)
      rw [hrest]
      rfl
    | none =>
      cases mc with
      | some q =>
        obtain ⟨hne, hds, hwu⟩ := hm
        have hskip : skipPySpace
              (w0 ++ (renderComp 'd' none ++ (w1 ++ (renderComp 'h' none ++ (w2 ++ renderComp 'm' (some q))))))
            = q.1 ++ (q.2 ++ ('m' :: [])) := by
          rw [show renderComp 'd' none = [] from rfl, show renderComp 'h' none = [] from rfl,
            List.nil_append, List.nil_append,
            skipPySpace_append hw0, skipPySpace_append hw1, skipPySpace_append hw2]
          exact skipPySpace_of_headNotSpace (headNotSpace_of_renderSome [] hne hds)
        rw [durationMatchGroups, hskip,
          matchOptNumUnit_of_none
            (matchNumUnit_miss_unit hne hds hwu (by decide) (by decide) (by decide))]
        have hrest := @matchHM_render [] [] (by simp) (by simp) none (some q)
          trivial ⟨hne, hds, hwu⟩
        rw [show ([] : List Char) ++ (renderComp 'h' none ++ ([] ++ renderComp 'm' (some q)))
            = q.1 ++ (q.2 ++ ('m' :: [])) by simp [renderComp]] at hrest
        show (0, matchHM (q.1 ++ (q.2 ++ ('m' :: []))))
          = (compVal none, compVal none, compVal (some q))
        rw [hrest]
        rfl
      | none =>
        have hskip : skipPySpace
              (w0 ++ (renderComp 'd' none ++ (w1 ++ (renderComp 'h' none ++ (w2 ++ renderComp 'm' none)))))
            = [] := by
          rw [show renderComp 'd' none = [] from rfl, show renderComp 'h' none = [] from rfl,
            show renderComp 'm' none = [] from rfl, List.nil_append, List.nil_append,
            List.append_nil, skipPySpace_append hw0, skipPySpace_append hw1]
          exact skipPySpace_all hw2
        rw [durationMatchGroups, hskip]
        rfl

/-! ## Decimal digit strings round-trip -/

/-- Value of a little-endian digit list. -/
def digitsValRev : List Char → Nat
  | [] => 0
  | c :: cs => digitToNat c + 10 * digitsValRev cs

lemma digitsToNat_append_singleton (l : List Char) (c : Char) :
    digitsToNat (l ++ [c]) = digitsToNat l * 10 + digitToNat c := by
  simp [digitsToNat, List.foldl_append]

lemma digitsToNat_reverse (l : List Char) : digitsToNat l.reverse = digitsValRev l := by
  induction l with
  | nil => rfl
  | cons c cs ih =>
    rw [List.reverse_cons, digitsToNat_append_singleton, ih, digitsValRev]
    ring

lemma digitToNat_digitChar {d : Nat} (h : d < 10) : digitToNat (digitChar d) = d := by
  interval_cases d <;> rfl

lemma isPyDigit_digitChar {d : Nat} (h : d < 10) : isPyDigit (digitChar d) = true := by
  interval_cases d <;> rfl

lemma digitsValRev_natToDigitsRevAux {fuel n : Nat} (h : n < 10 ^ fuel) :
    digitsValRev (natToDigitsRevAux fuel n) = n := by
  induction fuel generalizing n with
  | zero =>
    have : n = 0 := by simpa using h
    subst this
    rfl
  | succ fuel ih =>
    by_cases h10 : n < 10
    · simp [natToDigitsRevAux, h10, digitsValRev, digitToNat_digitChar h10]
    · have hdiv : n / 10 < 10 ^ fuel := by
        rw [Nat.div_lt_iff_lt_mul (by norm_num)]
        calc n < 10 ^ (fuel + 1) := h
          _ = 10 ^ fuel * 10 := by ring
      simp only [natToDigitsRevAux, h10, if_false, digitsValRev,
        digitToNat_digitChar (Nat.mod_lt n (by norm_num)), ih hdiv]
      omega

lemma natToDigitsRevAux_digits {fuel n : Nat} :
    ∀ c ∈ natToDigitsRevAux fuel n, isPyDigit c = true := by
  induction fuel generalizing n with
  | zero => simp [natToDigitsRevAux]
  | succ fuel ih =>
    intro c hc
    by_cases h10 : n < 10
    · simp only [natToDigitsRevAux, h10, if_true, List.mem_singleton] at hc
      subst hc
      exact isPyDigit_digitChar h10
    · simp only [natToDigitsRevAux, h10, if_false, List.mem_cons] at hc
      rcases hc with hc | hc
      · subst hc
        exact isPyDigit_digitChar (Nat.mod_lt n (by norm_num))
      · exact ih c hc

lemma natToDigits_digits (n : Nat) : ∀ c ∈ natToDigits n, isPyDigit c = true := by
  intro c hc
  rw [natToDigits, List.mem_reverse] at hc
  exact natToDigitsRevAux_digits c hc

lemma natToDigits_ne_nil (n : Nat) : natToDigits n ≠ [] := by
  rw [natToDigits, natToDigitsRev, natToDigitsRevAux]
  split <;> simp

lemma digitsToNat_natToDigits (n : Nat) : digitsToNat (natToDigits n) = n := by
  rw [natToDigits, digitsToNat_reverse]
  exact digitsValRev_natToDigitsRevAux
    (lt_of_lt_of_le (Nat.lt_pow_self (by norm_num) n)
      (Nat.pow_le_pow_right (by norm_num) (Nat.le_succ n)))

/-! ## Claims about the duration parser -/

lemma validate_duration_eq (s : String) :
    validate_duration s
      = .ok (PyTimedelta.ofDHM (durationMatchGroups s.data).1
          (durationMatchGroups s.data).2.1 (durationMatchGroups s.data).2.2) := rfl

/-- C4: for every string in the language of `(\d+d)?(\d+h)?(\d+m)?` with
optional internal whitespace — given by its three optional components, each
a nonempty digit string with whitespace filler, separated by whitespace —
`validate_duration` returns `timedelta(days, hours, minutes)` whose
components are the matched numbers, each missing component defaulting
to 0. -/
theorem validate_duration_parses_pattern
    (w0 w1 w2 : List Char) (dc hc mc : Option (List Char × List Char))
    (hw0 : ∀ c ∈ w0, isPySpace c = true) (hw1 : ∀ c ∈ w1, isPySpace c = true)
    (hw2 : ∀ c ∈ w2, isPySpace c = true)
    (hd : GoodComp dc) (hh : GoodComp hc) (hm : GoodComp mc) :
    validate_duration
        ⟨w0 ++ (renderComp 'd' dc ++ (w1 ++ (renderComp 'h' hc ++ (w2 ++ renderComp 'm' mc))))⟩
      = .ok (PyTimedelta.ofDHM (compVal dc) (compVal hc) (compVal mc)) := by
  rw [validate_duration_eq]
  have hg : durationMatchGroups
      (String.data ⟨w0 ++ (renderComp 'd' dc ++ (w1 ++ (renderComp 'h' hc ++ (w2 ++ renderComp 'm' mc))))⟩)
      = (compVal dc, compVal hc, compVal mc) :=
    durationMatchGroups_render hw0 hw1 hw2 hd hh hm
  rw [hg]

/-- Witness for C4 at `"1d2h3m"`, `"2h"` and `""`. -/
theorem validate_duration_parses_pattern_witness :
    validate_duration "1d2h3m" = .ok (PyTimedelta.ofDHM 1 2 3)
      ∧ validate_duration "2h" = .ok (PyTimedelta.ofDHM 0 2 0)
      ∧ validate_duration "" = .ok (PyTimedelta.ofDHM 0 0 0) := by
  refine ⟨?_, ?_, ?_⟩
  · have h := validate_duration_parses_pattern [] [] []
      (some (['1'], [])) (some (['2'], [])) (some (['3'], []))
      (by simp) (by simp) (by simp)
      ⟨by decide, by decide, by decide⟩ ⟨by decide, by decide, by decide⟩
      ⟨by decide, by decide, by decide⟩
    exact h
  · have h := validate_duration_parses_pattern [] [] []
      none (some (['2'], [])) none
      (by simp) (by simp) (by simp)
      trivial ⟨by decide, by decide, by decide⟩ trivial
    exact h
  · have h := validate_duration_parses_pattern [] [] [] none none none
      (by simp) (by simp) (by simp) trivial trivial trivial
    exact h

/-- C5: evaluation of `validate_duration` at the non-matching string
`"abc"`.  The source never raises for a string input: the regex's groups
are all optional, so `re.match` matches the empty prefix of `"abc"` and
the parser returns the zero duration instead of failing. -/
theorem validate_duration_abc_returns_zero :
    validate_duration "abc" = .ok ⟨0⟩ ∧ ∀ e, validate_duration "abc" ≠ .error e := by
  exact ⟨rfl, fun e h => by simp [validate_duration, reMatchDuration] at h⟩

lemma goodComp_ofInt (x : Int) :
    GoodComp (if x = 0 then none else some (natToDigits x.toNat, [])) := by
  split
  · trivial
  · exact ⟨natToDigits_ne_nil _, fun c hc => natToDigits_digits _ c hc, by simp⟩

lemma compVal_ofInt (x : Int) :
    compVal (if x = 0 then none else some (natToDigits x.toNat, [])) = x.toNat := by
  split
  · simp [compVal]
    omega
  · exact digitsToNat_natToDigits _

/-- C9: serializing a nonnegative whole-minute duration and parsing the
result is the identity. -/
theorem serialize_then_validate_duration (t : PyTimedelta)
    (h0 : 0 ≤ t.total_seconds) (hwm : t.total_seconds % 60 = 0) :
    validate_duration (serialize_duration t) = .ok t := by
  have hsec0 : 0 ≤ t.seconds := by
    simp only [PyTimedelta.seconds]
    omega
  have hd0 : ¬ t.days < 0 := by
    simp only [PyTimedelta.days]
    omega
  have hh0 : ¬ t.seconds / 3600 < 0 := by omega
  have hm0 : ¬ (t.seconds % 3600) / 60 < 0 := by omega
  have hdata : (serialize_duration t).data
      = [] ++ (renderComp 'd' (if t.days = 0 then none else some (natToDigits t.days.toNat, []))
          ++ ([] ++ (renderComp 'h'
              (if t.seconds / 3600 = 0 then none
               else some (natToDigits (t.seconds / 3600).toNat, []))
          ++ ([] ++ renderComp 'm'
              (if (t.seconds % 3600) / 60 = 0 then none
               else some (natToDigits ((t.seconds % 3600) / 60).toNat, [])))))) := by
    by_cases h1 : t.days = 0 <;> by_cases h2 : t.seconds / 3600 = 0 <;>
      by_cases h3 : (t.seconds % 3600) / 60 = 0 <;>
      simp [serialize_duration, h1, h2, h3, renderComp, intToString, natToString, hd0, hh0, hm0,
        String.data_append]
  rw [validate_duration_eq, hdata,
    durationMatchGroups_render (by simp) (by simp) (by simp)
      (goodComp_ofInt t.days) (goodComp_ofInt (t.seconds / 3600))
      (goodComp_ofInt ((t.seconds % 3600) / 60))]
  simp only [compVal_ofInt]
  obtain ⟨T⟩ := t
  simp only [PyTimedelta.ofDHM, PyTimedelta.days, PyTimedelta.seconds, Except.ok.injEq,
    PyTimedelta.mk.injEq] at h0 hwm hsec0 hd0 hh0 hm0 ⊢
  omega

/-- Witness for C9 at 1 day 2 hours 3 minutes (93780 s) and at the zero
duration (which serializes to the empty string). -/
theorem serialize_then_validate_duration_witness :
    validate_duration (serialize_duration ⟨93780⟩) = .ok ⟨93780⟩
      ∧ validate_duration (serialize_duration ⟨0⟩) = .ok ⟨0⟩
      ∧ serialize_duration ⟨0⟩ = "" :=
  ⟨serialize_then_validate_duration ⟨93780⟩ (by decide) (by decide),
   serialize_then_validate_duration ⟨0⟩ (by decide) (by decide),
   rfl⟩

/-! ## Python/YAML values (`models.py`)

Substitution maps in `repeat` entries are Python dicts (`dict[str, object]`);
their values are YAML scalars or nested mappings.  `Fields` is an
association list in insertion order, matching `dict.items()` iteration.
Python booleans are `int`s (`isinstance(True, int)` holds), so they embed
as `Val.int`. -/

mutual

inductive Val where
  | str (s : String)
  | int (n : Int)
  | vnone
  | map (fields : Fields)
deriving DecidableEq, Repr

inductive Fields where
  | fnil
  | fcons (key : String) (value : Val) (rest : Fields)
deriving DecidableEq, Repr

end

/-- `key in d` for a Python dict. -/
def Fields.containsKey : Fields → String → Bool
  | .fnil, _ => false
  | .fcons k _ rest, key => k == key || rest.containsKey key

/-- `d[key]` for a Python dict (keys are unique in a dict, so the first
match is the binding). -/
def Fields.lookup : Fields → String → Option Val
  | .fnil, _ => none
  | .fcons k v rest, key => if k == key then some v else rest.lookup key

def squoteStr : String :=
  (Char.ofNat 39).toString

mutual

/-- Python `repr(...)` on an embedded value (string escaping inside quotes
is not modelled; the configuration strings at issue contain none). -/
def pyRepr : Val → String
  | .str s => squoteStr ++ s ++ squoteStr
  | .int n => intToString n
  | .vnone => "None"
  | .map fs => "\x7b" ++ pyReprFields fs ++ "\x7d"

def pyReprFields : Fields → String
  | .fnil => ""
  | .fcons k v rest =>
    match rest with
    | .fnil => squoteStr ++ k ++ squoteStr ++ ": " ++ pyRepr v
    | .fcons .. => squoteStr ++ k ++ squoteStr ++ ": " ++ pyRepr v ++ ", " ++ pyReprFields rest

end

/-- Python `str(...)` on an embedded value (`str` of a `str` is itself;
for the other embedded types `str` agrees with `repr`). -/
def pyStr : Val → String
  | .str s => s
  | v => pyRepr v

/-- One step of Python `str.replace` with a nonempty pattern: scan left to
right, replacing non-overlapping occurrences.  `fuel` bounds the scan by
the string length to make the recursion structural. -/
def pyReplaceAux (pat rep : List Char) : Nat → List Char → List Char
  | _, [] => []
  | 0, l => l
  | fuel + 1, c :: cs =>
    if pat.isPrefixOf (c :: cs) then
      rep ++ pyReplaceAux pat rep fuel (List.drop (pat.length - 1) cs)
    else
      c :: pyReplaceAux pat rep fuel cs

/-- Python `s.replace(pat, rep)`.  An empty pattern inserts `rep` before
every character and once at the end (`"ab".replace("", "-") == "-a-b-"`). -/
def pyReplace (s pat rep : String) : String :=
  if pat.data = [] then
    ⟨rep.data ++ (s.data.map fun c => c :: rep.data).flatten⟩
  else
    ⟨pyReplaceAux pat.data rep.data s.data.length s.data⟩

example : pyReplace "Test $N and $N" "$N" "1" = "Test 1 and 1" := rfl

example : pyReplace "ab" "" "-" = "-a-b-" := rfl

example : pyReplace "aaa" "aa" "b" = "ba" := rfl

/-- `models.apply_substitutions`: for each `placeholder, replacement` in
the substitution dict (insertion order), replace every occurrence of the
placeholder by `str(replacement)`. -/
def apply_substitutions (string : String) : Fields → String
  | .fnil => string
  | .fcons placeholder replacement rest =>
    apply_substitutions (pyReplace string placeholder (pyStr replacement)) rest

example : apply_substitutions "run $N" (.fcons "$N" (.int 7) .fnil) = "run 7" := rfl

/-! ## Errors raised by `models.py` -/

/-- The exceptions the embedded `models.py` functions can raise.
`PointsSubstitutionError` and plain `AGConfigError` are configuration
errors (`class PointsSubstitutionError(AGConfigError)` in the source);
`NotImplementedError` is a Python builtin, not a configuration error. -/
inductive ModelError where
  | pointsSubstitutionError (msg : String)
  | agConfigError (msg : String)
  | notImplementedError
deriving DecidableEq, Repr

/-- Whether the raised exception `isinstance`-matches `AGConfigError`. -/
def ModelError.isAGConfigError : ModelError → Bool
  | .pointsSubstitutionError _ => true
  | .agConfigError _ => true
  | .notImplementedError => false

/-- The `str | int` type of the points fields of single-command settings. -/
inductive IntOrStr where
  | int (n : Int)
  | str (s : String)
deriving DecidableEq, Repr

/-- `models.apply_points_substitution`. -/
def apply_points_substitution (original_points_val : IntOrStr) (sub : Fields) :
    Except ModelError Int :=
  match original_points_val with
  | .int n => .ok n
  | .str s =>
    match sub.lookup s with
    | none =>
      .error (.pointsSubstitutionError
        ("Repeater key " ++ squoteStr ++ s ++ squoteStr ++ " not found."))
    | some (.int n) => .ok n
    | some _ =>
      .error (.pointsSubstitutionError
        "Point value substitutions must be an integer")

/-! ## Test-case configuration models (`models.py`)

The `ag_schema` enum types (`StdinSource`, `ExpectedReturnCode`,
`ExpectedOutputSource`) are string literal unions; they embed as `String`.
The feedback-config fields are `str | <config object>` unions; they embed
as `Val` (a string naming a preset, or a mapping). -/

structure StdinSettings where
  stdin_source : String := "none"
  stdin_text : String := ""
  stdin_instructor_file : Option String := Option.none
deriving DecidableEq, Repr

structure SingleCmdReturnCodeCheckSettings where
  expected_return_code : String := "none"
  points_for_correct_return_code : IntOrStr := .int 0
deriving DecidableEq, Repr

structure MultiCmdReturnCodeCheckSettings where
  expected_return_code : String := "none"
  points_for_correct_return_code : Int := 0
  deduction_for_wrong_return_code : Int := 0
deriving DecidableEq, Repr

structure SingleCmdDiffSettings where
  expected_stdout_source : String := "none"
  expected_stdout_text : String := ""
  expected_stdout_instructor_file : Option String := Option.none
  points_for_correct_stdout : IntOrStr := .int 0
  expected_stderr_source : String := "none"
  expected_stderr_text : String := ""
  expected_stderr_instructor_file : Option String := Option.none
  points_for_correct_stderr : IntOrStr := .int 0
  ignore_case : Bool := false
  ignore_whitespace : Bool := false
  ignore_whitespace_changes : Bool := false
  ignore_blank_lines : Bool := false
deriving DecidableEq, Repr

structure MultiCmdDiffSettings where
  expected_stdout_source : String := "none"
  expected_stdout_text : String := ""
  expected_stdout_instructor_file : Option String := Option.none
  points_for_correct_stdout : Int := 0
  deduction_for_wrong_stdout : Int := 0
  expected_stderr_source : String := "none"
  expected_stderr_text : String := ""
  expected_stderr_instructor_file : Option String := Option.none
  points_for_correct_stderr : Int := 0
  deduction_for_wrong_stderr : Int := 0
  ignore_case : Bool := false
  ignore_whitespace : Bool := false
  ignore_whitespace_changes : Bool := false
  ignore_blank_lines : Bool := false
deriving DecidableEq, Repr

structure CommandFeedbackSettings where
  normal_fdbk_config : Val := .str "pass/fail"
  first_failed_test_normal_fdbk_config : Option Val := Option.none
  ultimate_submission_fdbk_config : Val := .str "pass/fail"
  past_limit_submission_fdbk_config : Val := .str "private"
  staff_viewer_fdbk_config : Val := .str "public"
deriving DecidableEq, Repr

structure ResourceLimits where
  time_limit : Int := 10
  virtual_memory_limit : Option Int := Option.none
  block_process_spawn : Bool := false
deriving DecidableEq, Repr

/-- `ag_schema.AGTestCaseFeedbackConfig`. -/
structure AGTestCaseFeedbackConfig where
  visible : Bool := true
  show_individual_commands : Bool := true
  show_student_description : Bool := true
deriving DecidableEq, Repr

structure TestCaseAdvancedFdbkConfig where
  normal_fdbk_config : AGTestCaseFeedbackConfig := {}
  ultimate_submission_fdbk_config : AGTestCaseFeedbackConfig := {}
  past_limit_submission_fdbk_config : AGTestCaseFeedbackConfig := {}
  staff_viewer_fdbk_config : AGTestCaseFeedbackConfig := {}
deriving DecidableEq, Repr

structure SingleCmdTestCaseConfig where
  name : String
  type : String := "default"
  internal_admin_notes : String := ""
  staff_description : String := ""
  student_description : String := ""
  cmd : String
  input : StdinSettings := {}
  return_code : SingleCmdReturnCodeCheckSettings := {}
  output_diff : SingleCmdDiffSettings := {}
  feedback : CommandFeedbackSettings := {}
  resources : ResourceLimits := {}
  repeats : List Fields := []
deriving DecidableEq, Repr

structure MultiCommandConfig where
  name : String
  cmd : String
  input : StdinSettings := {}
  return_code : MultiCmdReturnCodeCheckSettings := {}
  output_diff : MultiCmdDiffSettings := {}
  feedback : CommandFeedbackSettings := {}
  resources : ResourceLimits := {}
  repeats : List Fields := []
deriving DecidableEq, Repr

structure MultiCmdTestCaseConfig where
  name : String
  type : String := "multi_cmd"
  repeats : List Fields := []
  internal_admin_notes : String := ""
  staff_description : String := ""
  student_description : String := ""
  feedback : TestCaseAdvancedFdbkConfig := {}
  commands : List MultiCommandConfig := []
deriving DecidableEq, Repr

/-! ## `do_repeat`

The `repeat` field of the source is named `repeats` here (`repeat` is a
reserved word in Lean).  Exceptions raised inside the loops surface as
`Except.error`. -/

/-- The body of the `for substitution in self.repeat` loop of
`SingleCmdTestCaseConfig.do_repeat` (models.py lines 419–434): the deep
copy of the template with substitutions applied.  Note that the source
assigns `new_test.cmd = apply_substitutions(new_test.name, substitution)`
(line 426) — reading the already-substituted *name*, not `new_test.cmd`. -/
def SingleCmdTestCaseConfig.expandOne (self : SingleCmdTestCaseConfig)
    (substitution : Fields) : Except ModelError SingleCmdTestCaseConfig := do
  let name := apply_substitutions self.name substitution
  let cmd := apply_substitutions name substitution
  let rc ← apply_points_substitution self.return_code.points_for_correct_return_code substitution
  let pout ← apply_points_substitution self.output_diff.points_for_correct_stdout substitution
  let perr ← apply_points_substitution self.output_diff.points_for_correct_stderr substitution
  return { self with
    name := name
    cmd := cmd
    return_code := { self.return_code with points_for_correct_return_code := .int rc }
    output_diff := { self.output_diff with
      points_for_correct_stdout := .int pout
      points_for_correct_stderr := .int perr } }

/-- The `for substitution in self.repeat` loop, accumulating `new_tests`
in order. -/
def SingleCmdTestCaseConfig.expandAll (self : SingleCmdTestCaseConfig) :
    List Fields → Except ModelError (List SingleCmdTestCaseConfig)
  | [] => .ok []
  | sub :: rest =>
    match self.expandOne sub with
    | .error e => .error e
    | .ok t =>
      match self.expandAll rest with
      | .error e => .error e
      | .ok ts => .ok (t :: ts)

/-- `SingleCmdTestCaseConfig.do_repeat`. -/
def SingleCmdTestCaseConfig.do_repeat (self : SingleCmdTestCaseConfig) :
    Except ModelError (List SingleCmdTestCaseConfig) :=
  if self.repeats = [] then .ok [self]
  else self.expandAll self.repeats

/-- `MultiCommandConfig.do_repeat`: `raise NotImplementedError`. -/
def MultiCommandConfig.do_repeat (_self : MultiCommandConfig) :
    Except ModelError (List MultiCommandConfig) :=
  .error .notImplementedError

/-- The body of the `for command in new_test.commands` loop of
`MultiCmdTestCaseConfig.do_repeat` (models.py lines 330–342). -/
def MultiCommandConfig.expandOne (command : MultiCommandConfig)
    (substitution : Fields) : Except ModelError MultiCommandConfig := do
  let rc ← apply_points_substitution (.int command.return_code.points_for_correct_return_code)
    substitution
  let pout ← apply_points_substitution (.int command.output_diff.points_for_correct_stdout)
    substitution
  let perr ← apply_points_substitution (.int command.output_diff.points_for_correct_stderr)
    substitution
  return { command with
    name := apply_substitutions command.name substitution
    cmd := apply_substitutions command.cmd substitution
    return_code := { command.return_code with points_for_correct_return_code := rc }
    output_diff := { command.output_diff with
      points_for_correct_stdout := pout
      points_for_correct_stderr := perr } }

def MultiCommandConfig.expandList (substitution : Fields) :
    List MultiCommandConfig → Except ModelError (List MultiCommandConfig)
  | [] => .ok []
  | c :: rest =>
    match c.expandOne substitution with
    | .error e => .error e
    | .ok c2 =>
      match MultiCommandConfig.expandList substitution rest with
      | .error e => .error e
      | .ok rest2 => .ok (c2 :: rest2)

/-- `itertools.chain(*[cmd.do_repeat() for cmd in new_test.commands])`. -/
def MultiCommandConfig.chainDoRepeat :
    List MultiCommandConfig → Except ModelError (List MultiCommandConfig)
  | [] => .ok []
  | c :: rest =>
    match c.do_repeat with
    | .error e => .error e
    | .ok l =>
      match MultiCommandConfig.chainDoRepeat rest with
      | .error e => .error e
      | .ok ls => .ok (l ++ ls)

/-- The body of the `for substitution in self.repeat` loop of
`MultiCmdTestCaseConfig.do_repeat` (models.py lines 326–348). -/
def MultiCmdTestCaseConfig.expandOne (self : MultiCmdTestCaseConfig)
    (substitution : Fields) : Except ModelError MultiCmdTestCaseConfig :=
  match MultiCommandConfig.expandList substitution self.commands with
  | .error e => .error e
  | .ok commands =>
    match MultiCommandConfig.chainDoRepeat commands with
    | .error e => .error e
    | .ok commands2 =>
      .ok { self with
        name := apply_substitutions self.name substitution
        commands := commands2 }

def MultiCmdTestCaseConfig.expandAll (self : MultiCmdTestCaseConfig) :
    List Fields → Except ModelError (List MultiCmdTestCaseConfig)
  | [] => .ok []
  | sub :: rest =>
    match self.expandOne sub with
    | .error e => .error e
    | .ok t =>
      match self.expandAll rest with
      | .error e => .error e
      | .ok ts => .ok (t :: ts)

/-- `MultiCmdTestCaseConfig.do_repeat`. -/
def MultiCmdTestCaseConfig.do_repeat (self : MultiCmdTestCaseConfig) :
    Except ModelError (List MultiCmdTestCaseConfig) :=
  if self.repeats = [] then .ok [self]
  else self.expandAll self.repeats

/-! ## Claims about `apply_points_substitution` (C10) -/

lemma Fields.lookup_eq_none_iff :
    ∀ (sub : Fields) (s : String), sub.lookup s = none ↔ sub.containsKey s = false
  | .fnil, s => by simp [Fields.lookup, Fields.containsKey]
  | .fcons k v rest, s => by
    by_cases hk : k == s
    · simp [Fields.lookup, Fields.containsKey, hk]
    · simp only [Fields.lookup, Fields.containsKey, hk, if_false, Bool.false_or]
      exact Fields.lookup_eq_none_iff rest s

/-- C10: `apply_points_substitution` returns an integer input unchanged
for every substitution map; for a string input it returns `ok n` exactly
when the map binds the string to the integer `n`, and it raises
`PointsSubstitutionError` — which is an `AGConfigError` — exactly when the
string is not a key of the map or the bound value is not an integer. -/
theorem apply_points_substitution_spec :
    (∀ (n : Int) (sub : Fields), apply_points_substitution (.int n) sub = .ok n)
    ∧ (∀ (s : String) (sub : Fields) (n : Int),
        apply_points_substitution (.str s) sub = .ok n ↔ sub.lookup s = some (.int n))
    ∧ (∀ (s : String) (sub : Fields),
        (∃ msg, apply_points_substitution (.str s) sub
            = .error (.pointsSubstitutionError msg))
          ↔ (sub.containsKey s = false
              ∨ ∃ v, sub.lookup s = some v ∧ ∀ n : Int, v ≠ .int n))
    ∧ (∀ msg, (ModelError.pointsSubstitutionError msg).isAGConfigError = true) := by
  refine ⟨fun n sub => rfl, fun s sub n => ?_, fun s sub => ?_, fun msg => rfl⟩
  · cases hl : sub.lookup s with
    | none => simp [apply_points_substitution, hl]
    | some v =>
      cases v <;> simp [apply_points_substitution, hl]
  · cases hl : sub.lookup s with
    | none =>
      simp only [apply_points_substitution, hl]
      constructor
      · intro _
        exact Or.inl ((Fields.lookup_eq_none_iff sub s).mp hl)
      · intro _
        exact ⟨_, rfl⟩
    | some v =>
      have hck : ¬ sub.containsKey s = false := by
        intro hc
        rw [← Fields.lookup_eq_none_iff sub s] at hc
        rw [hl] at hc
        exact Option.noConfusion hc
      cases v <;> simp [apply_points_substitution, hl, hck]

/-- Witness for C10: an integer passes through; a bound string resolves. -/
theorem apply_points_substitution_spec_witness :
    apply_points_substitution (.int 5) (.fcons "$P" (.str "x") .fnil) = .ok 5
      ∧ apply_points_substitution (.str "$P") (.fcons "$P" (.int 3) .fnil) = .ok 3 :=
  ⟨apply_points_substitution_spec.1 5 _,
   (apply_points_substitution_spec.2.1 "$P" (.fcons "$P" (.int 3) .fnil) 3).mpr rfl⟩

/-! ## Claims about `do_repeat` (C1, C7) -/

/-- The template of the spec example: name `"Test $N"`, command
`"run $N"`, repeated over `[{"$N": 1}, {"$N": 2}]`. -/
def c1Template : SingleCmdTestCaseConfig :=
  { name := "Test $N"
    cmd := "run $N"
    repeats := [.fcons "$N" (.int 1) .fnil, .fcons "$N" (.int 2) .fnil] }

/-- C1 (source line 426): `do_repeat` on the spec's example produces the
right names, but the commands come out as `"Test 1"`/`"Test 2"` — the
source computes the new `cmd` by substituting into the already-substituted
`name` instead of into `cmd`, so the claimed `"run 1"`/`"run 2"` are never
produced. -/
theorem do_repeat_cmd_overwritten_by_name :
    c1Template.do_repeat
      = .ok [{ c1Template with name := "Test 1", cmd := "Test 1" },
             { c1Template with name := "Test 2", cmd := "Test 2" }]
    ∧ (∀ l, c1Template.do_repeat = .ok l →
        l.map SingleCmdTestCaseConfig.cmd ≠ ["run 1", "run 2"]) := by
  have h0 : c1Template.do_repeat
      = .ok [{ c1Template with name := "Test 1", cmd := "Test 1" },
             { c1Template with name := "Test 2", cmd := "Test 2" }] := rfl
  refine ⟨h0, ?_⟩
  intro l hl
  rw [h0] at hl
  have h2 := Except.ok.inj hl
  subst h2
  decide

lemma singleExpandAll_ok {t : SingleCmdTestCaseConfig} :
    ∀ {subs : List Fields} {l : List SingleCmdTestCaseConfig},
      t.expandAll subs = .ok l →
      l.length = subs.length ∧
        ∀ i (h1 : i < subs.length) (h2 : i < l.length),
          t.expandOne (subs.get ⟨i, h1⟩) = .ok (l.get ⟨i, h2⟩) := by
  intro subs
  induction subs with
  | nil =>
    intro l h
    simp only [SingleCmdTestCaseConfig.expandAll] at h
    cases h
    exact ⟨rfl, fun i h1 h2 => absurd h1 (by simp)⟩
  | cons sub rest ih =>
    intro l h
    simp only [SingleCmdTestCaseConfig.expandAll] at h
    cases he : t.expandOne sub with
    | error e => rw [he] at h; exact Except.noConfusion h
    | ok t2 =>
      rw [he] at h
      cases hr : t.expandAll rest with
      | error e => rw [hr] at h; exact Except.noConfusion h
      | ok ts =>
        rw [hr] at h
        cases h
        obtain ⟨hlen, hget⟩ := ih hr
        refine ⟨by simp [hlen], ?_⟩
        intro i h1 h2
        cases i with
        | zero => simpa using he
        | succ j =>
          simpa using hget j (by simpa using h1) (by simpa using h2)

lemma multiCommand_expandList_ok (sub : Fields) :
    ∀ cmds : List MultiCommandConfig,
      ∃ l, MultiCommandConfig.expandList sub cmds = .ok l ∧ l.length = cmds.length := by
  intro cmds
  induction cmds with
  | nil => exact ⟨[], rfl, rfl⟩
  | cons c rest ih =>
    obtain ⟨l, hl, hlen⟩ := ih
    refine ⟨{ c with
        name := apply_substitutions c.name sub
        cmd := apply_substitutions c.cmd sub } :: l, ?_, by simp [hlen]⟩
    simp only [MultiCommandConfig.expandList]
    rw [show c.expandOne sub
        = .ok { c with
            name := apply_substitutions c.name sub
            cmd := apply_substitutions c.cmd sub } from rfl, hl]

lemma multiExpandOne_error {t : MultiCmdTestCaseConfig} (hc : t.commands ≠ [])
    (sub : Fields) : t.expandOne sub = .error .notImplementedError := by
  obtain ⟨l, hl, hlen⟩ := multiCommand_expandList_ok sub t.commands
  cases l with
  | nil =>
    cases hcmd : t.commands with
    | nil => exact absurd hcmd hc
    | cons c rest =>
      rw [hcmd] at hlen
      simp at hlen
  | cons c2 rest2 =>
    simp only [MultiCmdTestCaseConfig.expandOne, hl]
    rfl

/-- C7 (amended): with an empty repeat list `do_repeat` returns exactly
the template, for both variants.  For a single-command template with a
non-empty repeat list, a successful `do_repeat` returns exactly one
expanded test case per substitution map, in the same order.  A
multi-command template with a non-empty repeat list and at least one
command always fails with `NotImplementedError` (the per-command repeat
expansion is an unimplemented stub). -/
theorem do_repeat_count_and_order :
    (∀ t : SingleCmdTestCaseConfig, t.repeats = [] → t.do_repeat = .ok [t])
    ∧ (∀ t : MultiCmdTestCaseConfig, t.repeats = [] → t.do_repeat = .ok [t])
    ∧ (∀ (t : SingleCmdTestCaseConfig) (l : List SingleCmdTestCaseConfig),
        t.repeats ≠ [] → t.do_repeat = .ok l →
        l.length = t.repeats.length ∧
          ∀ i (h1 : i < t.repeats.length) (h2 : i < l.length),
            t.expandOne (t.repeats.get ⟨i, h1⟩) = .ok (l.get ⟨i, h2⟩))
    ∧ (∀ t : MultiCmdTestCaseConfig, t.repeats ≠ [] → t.commands ≠ [] →
        t.do_repeat = .error .notImplementedError) := by
  refine ⟨?_, ?_, ?_, ?_⟩
  · intro t ht
    simp [SingleCmdTestCaseConfig.do_repeat, ht]
  · intro t ht
    simp [MultiCmdTestCaseConfig.do_repeat, ht]
  · intro t l ht h
    rw [SingleCmdTestCaseConfig.do_repeat, if_neg ht] at h
    exact singleExpandAll_ok h
  · intro t ht hc
    rw [MultiCmdTestCaseConfig.do_repeat, if_neg ht]
    cases hrep : t.repeats with
    | nil => exact absurd hrep ht
    | cons sub rest =>
      simp only [MultiCmdTestCaseConfig.expandAll, multiExpandOne_error hc sub]

/-- A multi-command template with one command and one repeat entry. -/
def c7MultiTemplate : MultiCmdTestCaseConfig :=
  { name := "m", commands := [{ name := "c1", cmd := "echo hi" }], repeats := [.fnil] }

/-- C7 counterexample: a multi-command template with one command and one
repeat entry does not return one expanded test case — it fails with
`NotImplementedError`. -/
theorem do_repeat_multi_not_implemented :
    c7MultiTemplate.do_repeat = .error .notImplementedError
      ∧ ∀ l, c7MultiTemplate.do_repeat ≠ .ok l := by
  refine ⟨rfl, ?_⟩
  intro l h
  rw [show c7MultiTemplate.do_repeat = .error .notImplementedError from rfl] at h
  exact Except.noConfusion h

def c7SingleNoRepeat : SingleCmdTestCaseConfig :=
  { name := "t", cmd := "c" }

def c7MultiNoRepeat : MultiCmdTestCaseConfig :=
  { name := "x" }

/-- Witness for C7 at concrete templates. -/
theorem do_repeat_count_and_order_witness :
    c7SingleNoRepeat.do_repeat = .ok [c7SingleNoRepeat]
      ∧ c7MultiNoRepeat.do_repeat = .ok [c7MultiNoRepeat]
      ∧ ([{ c1Template with name := "Test 1", cmd := "Test 1" },
          { c1Template with name := "Test 2", cmd := "Test 2" }].length
            = c1Template.repeats.length)
      ∧ c7MultiTemplate.do_repeat = .error .notImplementedError := by
  refine ⟨do_repeat_count_and_order.1 _ rfl, do_repeat_count_and_order.2.1 _ rfl, ?_, ?_⟩
  · exact (do_repeat_count_and_order.2.2.1 c1Template _ (by simp [c1Template]) rfl).1
  · exact do_repeat_count_and_order.2.2.2 c7MultiTemplate (by simp [c7MultiTemplate])
      (by simp [c7MultiTemplate])

/-! ## Deadline resolution (C2)

`load_project._process_deadline` builds one of the deadline variants from
the two optional remote timestamps; the deadline part of
`save_project._ProjectSaver._make_legacy_project_api_dict` maps it back.
Timestamps embed as `Int` (datetime arithmetic is arithmetic on the time
axis: `hard - soft` is the cutoff duration, `deadline + cutoff` a
timestamp). -/

/-- The `deadline_cutoff_preference` CLI flag (`Literal["relative", "fixed"]`). -/
inductive CutoffPreference where
  | relative
  | fixed
deriving DecidableEq, Repr

/-- Modelled from the spec: the deadline variant classes
`DeadlineWithRelativeCutoff` / `DeadlineWithFixedCutoff` /
`DeadlineWithNoCutoff`.  `load_project.py` and `save_project.py` import
them from `models.py`, but the `models.py` revision under `src/` predates
them (it has no such classes), so their definitions are modelled from the
spec's §4.2 table and the importing code: a tagged variant carrying a
deadline timestamp and, for the cutoff variants, a cutoff (a duration for
the relative variant — defaulting to 0, per the spec table row
`(unset, set) ↦ RelativeCutoff(deadline=hard, cutoff=0)` and the source
comment "Default cutoff for relative is 0" — and a timestamp for the
fixed variant). -/
inductive Deadline where
  | relativeCutoff (deadline : Int) (cutoff : Int)
  | fixedCutoff (deadline : Int) (cutoff : Int)
  | noCutoff (deadline : Int)
deriving DecidableEq, Repr

/-- `load_project._process_deadline`. -/
def _process_deadline (soft_deadline hard_deadline : Option Int)
    (deadline_cutoff_preference : CutoffPreference) : Option Deadline :=
  match soft_deadline, hard_deadline with
  | some soft, some hard =>
    if deadline_cutoff_preference = .relative then
      some (.relativeCutoff soft (hard - soft))
    else
      some (.fixedCutoff soft hard)
  | some soft, none => some (.noCutoff soft)
  | none, some hard => some (.relativeCutoff hard 0)
  | none, none => none

/-- The deadline part of `_ProjectSaver._make_legacy_project_api_dict`:
the (`soft_closing_time`, `closing_time`) entries of the request body.
The outer `Option` is key presence (the `case None: pass` branch adds no
keys); the inner `Option` is a JSON null value. -/
def _make_legacy_deadline_dict : Option Deadline → Option (Option Int) × Option (Option Int)
  | some (.relativeCutoff deadline cutoff) => (some (some deadline), some (some (deadline + cutoff)))
  | some (.fixedCutoff deadline cutoff) => (some (some deadline), some (some cutoff))
  | some (.noCutoff deadline) => (some (some deadline), some none)
  | none => (none, none)

/-- C2: the load-time deadline table holds for all four presence
combinations of the two remote timestamps, and the save-time mapping
reproduces the spec's inverse exactly. -/
theorem deadline_table_and_inverse :
    (∀ s h : Int, _process_deadline (some s) (some h) .relative
        = some (.relativeCutoff s (h - s)))
    ∧ (∀ s h : Int, _process_deadline (some s) (some h) .fixed
        = some (.fixedCutoff s h))
    ∧ (∀ (s : Int) (pref : CutoffPreference),
        _process_deadline (some s) none pref = some (.noCutoff s))
    ∧ (∀ (h : Int) (pref : CutoffPreference),
        _process_deadline none (some h) pref = some (.relativeCutoff h 0))
    ∧ (∀ pref : CutoffPreference, _process_deadline none none pref = none)
    ∧ (∀ d c : Int, _make_legacy_deadline_dict (some (.relativeCutoff d c))
        = (some (some d), some (some (d + c))))
    ∧ (∀ d c : Int, _make_legacy_deadline_dict (some (.fixedCutoff d c))
        = (some (some d), some (some c)))
    ∧ (∀ d : Int, _make_legacy_deadline_dict (some (.noCutoff d))
        = (some (some d), some none)) :=
  ⟨fun _ _ => rfl, fun _ _ => rfl, fun _ _ => rfl, fun _ _ => rfl,
   fun _ => rfl, fun _ _ => rfl, fun _ _ => rfl, fun _ => rfl⟩

/-! ## Email-receipt collapse and expansion (C3) -/

/-- The tri-state (four-valued) `send_email_receipts` configuration value
`bool | Literal["on_received", "on_finish"]`: `.yes` is Python `True`,
`.no` is `False`. -/
inductive EmailReceipts where
  | yes
  | onReceived
  | onFinish
  | no
deriving DecidableEq, Repr

/-- `load_project._process_email_receipts`, from the two remote booleans
`send_email_on_submission_received` / `send_email_on_non_deferred_tests_finished`. -/
def _process_email_receipts (on_received on_finish : Bool) : EmailReceipts :=
  if on_received && on_finish then .yes
  else if on_received then .onReceived
  else if on_finish then .onFinish
  else .no

/-- Modelled from the spec: the computed field
`ProjectSettings.send_email_on_submission_received` over the tri-state
value ("The reverse expansion for API submission re-derives both booleans
from the tri-state value (`true` implies both booleans true)").  The
`models.py` revision under `src/` still types `send_email_receipts` as a
plain `bool` (both computed fields return it unchanged), which cannot
carry the tri-state value `_process_email_receipts` produces and the
saver submits; the tri-state revision of `ProjectSettings` is missing
from the snapshot. -/
def send_email_on_submission_received : EmailReceipts → Bool
  | .yes => true
  | .onReceived => true
  | .onFinish => false
  | .no => false

/-- Modelled from the spec: the computed field
`ProjectSettings.send_email_on_non_deferred_tests_finished` (see
`send_email_on_submission_received`). -/
def send_email_on_non_deferred_tests_finished : EmailReceipts → Bool
  | .yes => true
  | .onReceived => false
  | .onFinish => true
  | .no => false

/-- C3: collapse and expansion are mutually inverse bijections between
the boolean pairs and the tri-state values, with the collapse mapping
(T,T) to `true`, (T,F) to `"on_received"`, (F,T) to `"on_finish"`, (F,F)
to `false`, and `true` expanding to both booleans true. -/
theorem email_receipts_bijection :
    (∀ r f : Bool,
      send_email_on_submission_received (_process_email_receipts r f) = r
        ∧ send_email_on_non_deferred_tests_finished (_process_email_receipts r f) = f)
    ∧ (∀ e : EmailReceipts,
        _process_email_receipts (send_email_on_submission_received e)
          (send_email_on_non_deferred_tests_finished e) = e)
    ∧ _process_email_receipts true true = .yes
    ∧ _process_email_receipts true false = .onReceived
    ∧ _process_email_receipts false true = .onFinish
    ∧ _process_email_receipts false false = .no
    ∧ send_email_on_submission_received .yes = true
    ∧ send_email_on_non_deferred_tests_finished .yes = true := by
  refine ⟨?_, ?_, rfl, rfl, rfl, rfl, rfl, rfl⟩
  · intro r f
    cases r <;> cases f <;> exact ⟨rfl, rfl⟩
  · intro e
    cases e <;> rfl

/-! ## Save-time reconciliation of files (C8)

`_save_expected_student_files` and `_save_instructor_files` issue only
three kinds of HTTP traffic — POST (create), PATCH (update student-file
metadata), PUT (upload instructor-file content) — plus printed warnings;
neither function (nor anything else in `save_project.py`) issues a
DELETE, so the request type below is exhaustive for them.  Remote state
is the name-keyed dict the functions build from the GET list (patterns
and filenames are unique remotely, so the association list is the dict). -/

inductive SaveRequest where
  | post (key : String)
  | patch (pk : Int) (key : String)
  | putContent (pk : Int) (key : String)
  | warn (key : String)
deriving DecidableEq, Repr

/-- The request mutates remote state (a warning does not). -/
def SaveRequest.isMutating : SaveRequest → Bool
  | .post _ => true
  | .patch _ _ => true
  | .putContent _ _ => true
  | .warn _ => false

/-- The pattern/filename the request concerns. -/
def SaveRequest.key : SaveRequest → String
  | .post k => k
  | .patch _ k => k
  | .putContent _ k => k
  | .warn k => k

def assocLookup : List (String × Int) → String → Option Int
  | [], _ => none
  | (k, pk) :: rest, key => if k == key then some pk else assocLookup rest key

/-- `_ProjectSaver._save_expected_student_files` as the list of requests
it issues: `locals` are the local patterns (`str(student_file_config)` in
YAML order), `remote` the remote `pattern ↦ pk` dict.  For each local
pattern: POST if absent remotely, else PATCH by primary key; then one
warning per remote-only pattern. -/
def _save_expected_student_files (locals : List String)
    (remote : List (String × Int)) : List SaveRequest :=
  (locals.map fun pattern =>
    match assocLookup remote pattern with
    | some pk => .patch pk pattern
    | none => .post pattern)
  ++ (remote.filter fun it => decide (it.1 ∉ locals)).map (fun it => .warn it.1)

/-- The `for local_file in ...` loop of `_save_instructor_files`: PUT the
content if the name is in the dict, else POST; a created or updated file
is written back into the dict (`self.instructor_files[name] = response`),
a fresh primary key standing for the server's response to a POST. -/
def instrLoop (dict : List (String × Int)) (freshPk : Int) :
    List String → List SaveRequest × List (String × Int)
  | [] => ([], dict)
  | name :: rest =>
    match assocLookup dict name with
    | some pk =>
      let r := instrLoop dict freshPk rest
      (.putContent pk name :: r.1, r.2)
    | none =>
      let r := instrLoop (dict ++ [(name, freshPk)]) (freshPk + 1) rest
      (.post name :: r.1, r.2)

/-- `_ProjectSaver._save_instructor_files` as the list of requests it
issues: the upload loop over the local file names (glob results in
iteration order), then one warning per name of the final dict that no
local file has. -/
def _save_instructor_files (locals : List String)
    (remote : List (String × Int)) (freshPk : Int) : List SaveRequest :=
  let r := instrLoop remote freshPk locals
  r.1 ++ (r.2.filter fun it => decide (it.1 ∉ locals)).map (fun it => .warn it.1)

lemma instrLoop_requests_from_names {req : SaveRequest} :
    ∀ (names : List String) (dict : List (String × Int)) (freshPk : Int),
      req ∈ (instrLoop dict freshPk names).1 → req.key ∈ names := by
  intro names
  induction names with
  | nil => intro dict freshPk h; exact absurd h (by simp [instrLoop])
  | cons name rest ih =>
    intro dict freshPk h
    simp only [instrLoop] at h
    cases hl : assocLookup dict name with
    | some pk =>
      rw [hl] at h
      simp only [List.mem_cons] at h
      rcases h with h | h
      · subst h; simp [SaveRequest.key]
      · exact List.mem_cons_of_mem _ (ih _ _ h)
    | none =>
      rw [hl] at h
      simp only [List.mem_cons] at h
      rcases h with h | h
      · subst h; simp [SaveRequest.key]
      · exact List.mem_cons_of_mem _ (ih _ _ h)

lemma instrLoop_dict_grows {p : String} {pk : Int} :
    ∀ (names : List String) (dict : List (String × Int)) (freshPk : Int),
      (p, pk) ∈ dict → (p, pk) ∈ (instrLoop dict freshPk names).2 := by
  intro names
  induction names with
  | nil => intro dict freshPk h; simpa [instrLoop] using h
  | cons name rest ih =>
    intro dict freshPk h
    simp only [instrLoop]
    cases hl : assocLookup dict name with
    | some pk2 => exact ih _ _ h
    | none => exact ih _ _ (by simp [h])

/-- C8: a remote expected-student-file or instructor-file entry whose
pattern (filename) is not named by the local configuration receives a
warning and no mutating request at all: every POST/PATCH/PUT issued by
either reconciler concerns a locally configured name.  (No DELETE exists
in the saver.) -/
theorem remote_only_files_only_warned
    (locals : List String) (remote : List (String × Int))
    (p : String) (pk : Int) (freshPk : Int)
    (hmem : (p, pk) ∈ remote) (hnot : p ∉ locals) :
    (SaveRequest.warn p ∈ _save_expected_student_files locals remote
      ∧ ∀ req ∈ _save_expected_student_files locals remote,
          req.isMutating = true → req.key ≠ p)
    ∧ (SaveRequest.warn p ∈ _save_instructor_files locals remote freshPk
      ∧ ∀ req ∈ _save_instructor_files locals remote freshPk,
          req.isMutating = true → req.key ≠ p) := by
  refine ⟨⟨?_, ?_⟩, ⟨?_, ?_⟩⟩
  · apply List.mem_append_right
    exact List.mem_map.mpr ⟨(p, pk), List.mem_filter.mpr ⟨hmem, by simpa using hnot⟩, rfl⟩
  · intro req hreq hmut
    rcases List.mem_append.mp hreq with h | h
    · obtain ⟨pattern, hpat, hr⟩ := List.mem_map.mp h
      intro hkey
      apply hnot
      have : req.key = pattern := by
        cases hl : assocLookup remote pattern <;> rw [hl] at hr <;>
          simp [← hr, SaveRequest.key]
      rw [← hkey, this]
      exact hpat
    · obtain ⟨it, _, hr⟩ := List.mem_map.mp h
      rw [← hr] at hmut
      exact absurd hmut (by simp [SaveRequest.isMutating])
  · apply List.mem_append_right
    refine List.mem_map.mpr ⟨(p, pk), List.mem_filter.mpr ⟨?_, by simpa using hnot⟩, rfl⟩
    exact instrLoop_dict_grows locals remote freshPk hmem
  · intro req hreq hmut
    rcases List.mem_append.mp hreq with h | h
    · intro hkey
      apply hnot
      rw [← hkey]
      exact instrLoop_requests_from_names locals remote freshPk h
    · obtain ⟨it, _, hr⟩ := List.mem_map.mp h
      rw [← hr] at hmut
      exact absurd hmut (by simp [SaveRequest.isMutating])

/-- Witness for C8: one shared local file, one remote-only file each. -/
theorem remote_only_files_only_warned_witness :
    SaveRequest.warn "gone.txt"
        ∈ _save_expected_student_files ["a.txt"] [("a.txt", 1), ("gone.txt", 2)]
      ∧ SaveRequest.warn "gone.txt"
        ∈ _save_instructor_files ["a.txt"] [("a.txt", 1), ("gone.txt", 2)] 10 := by
  have h := remote_only_files_only_warned ["a.txt"] [("a.txt", 1), ("gone.txt", 2)]
    "gone.txt" 2 10 (by simp) (by simp)
  exact ⟨h.1.1, h.2.1⟩

/-! ## Repeat overrides (C6)

The spec's `do_repeat` supports a reserved `_override` key in a repeat
substitution map.  The `models.py` revision under `src/` has no override
handling at all (its `do_repeat` would treat `"_override"` as an ordinary
placeholder string); the revision the spec describes is missing from the
snapshot, so the mechanism below is modelled from the spec's words
(§4.2): "If the substitution map contains the reserved override key, its
value must be a mapping whose keys are existing top-level field names of
the test case; each entry either deep-merges (if both override value and
field are mappings) or replaces outright; an override key absent from the
test case schema, or a non-mapping override value, fails with
`ConfigError`."  A test case is viewed as its top-level field mapping
(`Fields`). -/

mutual

/-- Modelled from the spec: merging an override value into an existing
field value — deep-merge when both are mappings, replace outright
otherwise. -/
def deepMergeVal : Val → Val → Val
  | .map o, .map n => .map (deepMergeFields o n)
  | _, n => n

/-- Modelled from the spec: fold the override entries into the mapping. -/
def deepMergeFields (old : Fields) : Fields → Fields
  | .fnil => old
  | .fcons k v rest => deepMergeFields (setFieldMerged old k v) rest

/-- Modelled from the spec: apply one override entry to the named field
(appending when absent — the top-level caller checks presence first). -/
def setFieldMerged : Fields → String → Val → Fields
  | .fnil, k, v => .fcons k v .fnil
  | .fcons k2 v2 rest, k, v =>
    if k2 == k then .fcons k2 (deepMergeVal v2 v) rest
    else .fcons k2 v2 (setFieldMerged rest k v)

end

/-- Replace the value of an existing key (no-op when absent). -/
def setField : Fields → String → Val → Fields
  | .fnil, _, _ => .fnil
  | .fcons k2 v2 rest, k, v =>
    if k2 == k then .fcons k2 v rest else .fcons k2 v2 (setField rest k v)

/-- Drop a key from a mapping. -/
def removeKey : Fields → String → Fields
  | .fnil, _ => .fnil
  | .fcons k2 v rest, k =>
    if k2 == k then removeKey rest k else .fcons k2 v (removeKey rest k)

/-- Modelled from the spec: one override entry must name an existing
top-level field of the test case, else `ConfigError`. -/
def applyOverrideEntries (tc : Fields) : Fields → Except ModelError Fields
  | .fnil => .ok tc
  | .fcons k v rest =>
    if tc.containsKey k then applyOverrideEntries (setFieldMerged tc k v) rest
    else .error (.agConfigError ("Invalid override field: " ++ k))

/-- Modelled from the spec: a non-mapping `_override` value is a
`ConfigError`. -/
def applyOverride (tc : Fields) (ov : Val) : Except ModelError Fields :=
  match ov with
  | .map entries => applyOverrideEntries tc entries
  | _ => .error (.agConfigError "Override value must be a mapping")

/-- Substitute placeholders into one string-valued top-level field. -/
def substituteStringField (tc : Fields) (field : String) (sub : Fields) : Fields :=
  match tc.lookup field with
  | some (.str str) => setField tc field (.str (apply_substitutions str sub))
  | _ => tc

/-- Modelled from the spec: placeholder replacement over the template's
string fields, with the reserved `_override` key excluded from the
substitutions. -/
def substitutedFields (tc sub : Fields) : Fields :=
  substituteStringField (substituteStringField tc "name" (removeKey sub "_override"))
    "cmd" (removeKey sub "_override")

/-- Modelled from the spec: the expansion of one repeat substitution map —
placeholder replacement in the string fields (the reserved `_override`
key excluded), then the override block, if present, applied to the
expanded instance. -/
def expandMapped (tc : Fields) (sub : Fields) : Except ModelError Fields :=
  match sub.lookup "_override" with
  | none => .ok (substitutedFields tc sub)
  | some ov => applyOverride (substitutedFields tc sub) ov

def mapRepeats (tc : Fields) : List Fields → Except ModelError (List Fields)
  | [] => .ok []
  | sub :: rest =>
    match expandMapped tc sub with
    | .error e => .error e
    | .ok t =>
      match mapRepeats tc rest with
      | .error e => .error e
      | .ok ts => .ok (t :: ts)

/-- Modelled from the spec: `do_repeat` over the mapping view of a test
case. -/
def doRepeatMapped (tc : Fields) (repeats : List Fields) :
    Except ModelError (List Fields) :=
  if repeats = [] then .ok [tc] else mapRepeats tc repeats

theorem setFieldMerged_lookup_self :
    ∀ (tc : Fields) (k : String) (v vOld : Val),
      tc.lookup k = some vOld →
      (setFieldMerged tc k v).lookup k = some (deepMergeVal vOld v)
  | .fnil, k, v, vOld, h => by simp [Fields.lookup] at h
  | .fcons k2 v2 rest, k, v, vOld, h => by
    by_cases hk : k2 == k
    · rw [Fields.lookup, if_pos hk] at h
      cases h
      rw [setFieldMerged, if_pos hk, Fields.lookup, if_pos hk]
    · rw [Fields.lookup, if_neg hk] at h
      rw [setFieldMerged, if_neg hk, Fields.lookup, if_neg hk]
      exact setFieldMerged_lookup_self rest k v vOld h

theorem setFieldMerged_lookup_other :
    ∀ (tc : Fields) (k k2 : String) (v : Val), k2 ≠ k →
      (setFieldMerged tc k v).lookup k2 = tc.lookup k2
  | .fnil, k, k2, v, h => by
    have : (k == k2) = false := by
      simp only [beq_eq_false_iff_ne, ne_eq]
      exact fun e => h e.symm
    simp [setFieldMerged, Fields.lookup, this]
  | .fcons k3 v3 rest, k, k2, v, h => by
    by_cases hk : k3 == k
    · rw [setFieldMerged, if_pos hk, Fields.lookup, Fields.lookup]
      have hk3 : k3 = k := by simpa using hk
      have hk32 : (k3 == k2) = false := by
        subst hk3
        simp only [beq_eq_false_iff_ne, ne_eq]
        exact fun e => h e.symm
      simp [hk32]
    · rw [setFieldMerged, if_neg hk, Fields.lookup, Fields.lookup]
      by_cases hk2 : k3 == k2
      · rw [if_pos hk2, if_pos hk2]
      · rw [if_neg hk2, if_neg hk2]
        exact setFieldMerged_lookup_other rest k k2 v h

theorem setField_containsKey :
    ∀ (tc : Fields) (k : String) (v : Val) (k2 : String),
      (setField tc k v).containsKey k2 = tc.containsKey k2
  | .fnil, k, v, k2 => rfl
  | .fcons k3 v3 rest, k, v, k2 => by
    by_cases hk : k3 == k
    · rw [setField, if_pos hk, Fields.containsKey, Fields.containsKey]
    · rw [setField, if_neg hk, Fields.containsKey, Fields.containsKey,
        setField_containsKey rest k v k2]

lemma substituteStringField_containsKey (tc : Fields) (field : String)
    (sub : Fields) (k : String) :
    (substituteStringField tc field sub).containsKey k = tc.containsKey k := by
  rw [substituteStringField]
  cases hl : tc.lookup field with
  | none => rfl
  | some v => cases v <;> first | rfl | exact setField_containsKey ..

lemma mapRepeats_ok {tc : Fields} :
    ∀ {repeats : List Fields} {l : List Fields},
      mapRepeats tc repeats = .ok l →
      l.length = repeats.length ∧
        ∀ i (h1 : i < repeats.length) (h2 : i < l.length),
          expandMapped tc (repeats.get ⟨i, h1⟩) = .ok (l.get ⟨i, h2⟩) := by
  intro repeats
  induction repeats with
  | nil =>
    intro l h
    simp only [mapRepeats] at h
    cases h
    exact ⟨rfl, fun i h1 h2 => absurd h1 (by simp)⟩
  | cons sub rest ih =>
    intro l h
    simp only [mapRepeats] at h
    cases he : expandMapped tc sub with
    | error e => rw [he] at h; exact Except.noConfusion h
    | ok t =>
      rw [he] at h
      cases hr : mapRepeats tc rest with
      | error e => rw [hr] at h; exact Except.noConfusion h
      | ok ts =>
        rw [hr] at h
        cases h
        obtain ⟨hlen, hget⟩ := ih hr
        refine ⟨by simp [hlen], ?_⟩
        intro i h1 h2
        cases i with
        | zero => simpa using he
        | succ j => simpa using hget j (by simpa using h1) (by simpa using h2)

theorem Fields.containsKey_of_lookup :
    ∀ (tc : Fields) (k : String) (v : Val),
      tc.lookup k = some v → tc.containsKey k = true
  | .fnil, k, v, h => by
    rw [Fields.lookup] at h
    exact Option.noConfusion h
  | .fcons k2 v2 rest, k, v, h => by
    by_cases hk : k2 == k
    · rw [Fields.containsKey, hk, Bool.true_or]
    · rw [Fields.lookup, if_neg hk] at h
      have hkf : (k2 == k) = false := by simpa using hk
      rw [Fields.containsKey, hkf, Bool.false_or]
      exact Fields.containsKey_of_lookup rest k v h

theorem setFieldMerged_containsKey_of_mem :
    ∀ (tc : Fields) (k : String) (v : Val) (k2 : String),
      tc.containsKey k = true →
      (setFieldMerged tc k v).containsKey k2 = tc.containsKey k2
  | .fnil, k, v, k2, h => by
    rw [Fields.containsKey] at h
    exact Bool.noConfusion h
  | .fcons k3 v3 rest, k, v, k2, h => by
    by_cases hk : k3 == k
    · rw [setFieldMerged, if_pos hk, Fields.containsKey, Fields.containsKey]
    · have hkf : (k3 == k) = false := by simpa using hk
      rw [Fields.containsKey, hkf, Bool.false_or] at h
      rw [setFieldMerged, if_neg hk, Fields.containsKey, Fields.containsKey,
        setFieldMerged_containsKey_of_mem rest k v k2 h]

theorem applyOverrideEntries_ok_of_all_present :
    ∀ (entries tc : Fields),
      (∀ k, entries.containsKey k = true → tc.containsKey k = true) →
      applyOverrideEntries tc entries = .ok (deepMergeFields tc entries)
  | .fnil, tc, _ => by
    simp only [applyOverrideEntries, deepMergeFields]
  | .fcons k v rest, tc, h => by
    have hk : tc.containsKey k = true := h k (by rw [Fields.containsKey]; simp)
    simp only [applyOverrideEntries, deepMergeFields, hk, if_true]
    exact applyOverrideEntries_ok_of_all_present rest (setFieldMerged tc k v)
      (fun k2 hk2 => by
        rw [setFieldMerged_containsKey_of_mem tc k v k2 hk]
        refine h k2 ?_
        rw [Fields.containsKey, hk2, Bool.or_true])

theorem applyOverrideEntries_error_of_missing :
    ∀ (entries tc : Fields) (k : String),
      entries.containsKey k = true → tc.containsKey k = false →
      ∃ msg, applyOverrideEntries tc entries = .error (.agConfigError msg)
  | .fnil, tc, k, hE, hT => by
    rw [Fields.containsKey] at hE
    exact Bool.noConfusion hE
  | .fcons k2 v2 rest, tc, k, hE, hT => by
    by_cases h2 : tc.containsKey k2 = true
    · have hrest : rest.containsKey k = true := by
        rw [Fields.containsKey] at hE
        cases hx : (k2 == k) with
        | true =>
          have hkk : k2 = k := by simpa using hx
          rw [hkk, hT] at h2
          exact Bool.noConfusion h2
        | false =>
          rw [hx, Bool.false_or] at hE
          exact hE
      obtain ⟨msg, hmsg⟩ := applyOverrideEntries_error_of_missing rest
        (setFieldMerged tc k2 v2) k hrest
        (by rw [setFieldMerged_containsKey_of_mem tc k2 v2 k h2]; exact hT)
      refine ⟨msg, ?_⟩
      simp only [applyOverrideEntries, h2, if_true]
      exact hmsg
    · refine ⟨"Invalid override field: " ++ k2, ?_⟩
      have h2f : tc.containsKey k2 = false := by simpa using h2
      simp only [applyOverrideEntries, h2f, Bool.false_eq_true, if_false]

/-- C6: (i) each repeat instance is expanded from the template and its
own substitution map alone — one output per map, in order — so an
override in one map leaves the other instances unaffected; (ii) applying
an override entry to a mapping with the named field replaces it by the
merged value and leaves every other field unchanged; (iii) the merged
value is the deep merge when both the override value and the field are
mappings, and (iv) the override value outright otherwise; (v) an
`_override` mapping all of whose keys are existing top-level fields makes
the expansion succeed with exactly the override entries folded into the
substituted instance; (vi) in particular a single-entry override succeeds
and yields the instance whose named field is the replaced/merged value,
all other fields unchanged; (vii) a non-mapping `_override` value fails
with `ConfigError`; (viii) an `_override` mapping containing — at any
position — a key that is not an existing top-level field of the test
case fails with `ConfigError`. -/
theorem do_repeat_override_spec :
    (∀ (tc : Fields) (repeats : List Fields) (l : List Fields),
      doRepeatMapped tc repeats = .ok l → repeats ≠ [] →
      l.length = repeats.length ∧
        ∀ i (h1 : i < repeats.length) (h2 : i < l.length),
          expandMapped tc (repeats.get ⟨i, h1⟩) = .ok (l.get ⟨i, h2⟩))
    ∧ (∀ (tc : Fields) (k : String) (v vOld : Val),
        tc.lookup k = some vOld →
        (setFieldMerged tc k v).lookup k = some (deepMergeVal vOld v)
          ∧ ∀ k2, k2 ≠ k → (setFieldMerged tc k v).lookup k2 = tc.lookup k2)
    ∧ (∀ o n : Fields, deepMergeVal (.map o) (.map n) = .map (deepMergeFields o n))
    ∧ (∀ (vOld v : Val), (∀ n, v ≠ .map n) → deepMergeVal vOld v = v)
    ∧ (∀ (tc sub entries : Fields),
        sub.lookup "_override" = some (.map entries) →
        (∀ k, entries.containsKey k = true → tc.containsKey k = true) →
        expandMapped tc sub = .ok (deepMergeFields (substitutedFields tc sub) entries))
    ∧ (∀ (tc sub : Fields) (k : String) (v vOld : Val),
        sub.lookup "_override" = some (.map (.fcons k v .fnil)) →
        (substitutedFields tc sub).lookup k = some vOld →
        expandMapped tc sub = .ok (setFieldMerged (substitutedFields tc sub) k v)
          ∧ (setFieldMerged (substitutedFields tc sub) k v).lookup k
              = some (deepMergeVal vOld v)
          ∧ ∀ k2, k2 ≠ k →
              (setFieldMerged (substitutedFields tc sub) k v).lookup k2
                = (substitutedFields tc sub).lookup k2)
    ∧ (∀ (tc sub : Fields) (ov : Val),
        sub.lookup "_override" = some ov → (∀ e, ov ≠ .map e) →
        ∃ msg, expandMapped tc sub = .error (.agConfigError msg))
    ∧ (∀ (tc sub entries : Fields) (k : String),
        sub.lookup "_override" = some (.map entries) →
        entries.containsKey k = true → tc.containsKey k = false →
        ∃ msg, expandMapped tc sub = .error (.agConfigError msg)) := by
  refine ⟨?_, ?_, ?_, ?_, ?_, ?_, ?_, ?_⟩
  · intro tc repeats l h hne
    rw [doRepeatMapped, if_neg hne] at h
    exact mapRepeats_ok h
  · intro tc k v vOld h
    exact ⟨setFieldMerged_lookup_self tc k v vOld h,
      fun k2 hk2 => setFieldMerged_lookup_other tc k k2 v hk2⟩
  · intro o n
    rw [deepMergeVal]
  · intro vOld v hv
    cases v with
    | map n => exact absurd rfl (hv n)
    | str str => cases vOld <;> simp [deepMergeVal]
    | int n => cases vOld <;> simp [deepMergeVal]
    | vnone => cases vOld <;> simp [deepMergeVal]
  · intro tc sub entries hov hall
    have htrans : ∀ k, entries.containsKey k = true →
        (substitutedFields tc sub).containsKey k = true := by
      intro k hk
      rw [substitutedFields, substituteStringField_containsKey,
        substituteStringField_containsKey]
      exact hall k hk
    rw [expandMapped, hov]
    exact applyOverrideEntries_ok_of_all_present entries _ htrans
  · intro tc sub k v vOld hov hlook
    have hck2 : (substitutedFields tc sub).containsKey k = true :=
      Fields.containsKey_of_lookup _ k vOld hlook
    have hok := applyOverrideEntries_ok_of_all_present (.fcons k v .fnil)
      (substitutedFields tc sub)
      (by
        intro k2 hk2
        rw [Fields.containsKey, Fields.containsKey, Bool.or_false] at hk2
        have hkk : k = k2 := by simpa using hk2
        rw [← hkk]
        exact hck2)
    have hsingle : deepMergeFields (substitutedFields tc sub) (.fcons k v .fnil)
        = setFieldMerged (substitutedFields tc sub) k v := by
      simp only [deepMergeFields]
    refine ⟨?_, setFieldMerged_lookup_self _ k v vOld hlook,
      fun k2 hk2 => setFieldMerged_lookup_other _ k k2 v hk2⟩
    rw [expandMapped, hov]
    rw [← hsingle]
    exact hok
  · intro tc sub ov hov hnotmap
    rw [expandMapped]
    rw [hov]
    cases ov with
    | map e => exact absurd rfl (hnotmap e)
    | str str => exact ⟨_, rfl⟩
    | int n => exact ⟨_, rfl⟩
    | vnone => exact ⟨_, rfl⟩
  · intro tc sub entries k hov hEk hTk
    obtain ⟨msg, hmsg⟩ := applyOverrideEntries_error_of_missing entries
      (substitutedFields tc sub) k hEk
      (by
        rw [substitutedFields, substituteStringField_containsKey,
          substituteStringField_containsKey]
        exact hTk)
    refine ⟨msg, ?_⟩
    rw [expandMapped, hov]
    exact hmsg

/-- A two-field test case used in the C6 witness. -/
def c6TestCase : Fields :=
  .fcons "name" (.str "t") (.fcons "cmd" (.str "old") .fnil)

/-- The spec's example override substitution map,
`{"_override": {"cmd": "echo override"}}`. -/
def c6Override : Fields :=
  .fcons "_override" (.map (.fcons "cmd" (.str "echo override") .fnil)) .fnil

/-- Witness for C6: the spec's example override succeeds and replaces
`cmd` while leaving `name` alone; a non-mapping override value errors;
an override whose second entry names an absent field errors. -/
theorem do_repeat_override_spec_witness :
    (expandMapped c6TestCase c6Override
        = .ok (setFieldMerged (substitutedFields c6TestCase c6Override) "cmd"
            (.str "echo override"))
      ∧ (setFieldMerged (substitutedFields c6TestCase c6Override) "cmd"
          (.str "echo override")).lookup "cmd" = some (.str "echo override")
      ∧ (setFieldMerged (substitutedFields c6TestCase c6Override) "cmd"
          (.str "echo override")).lookup "name" = some (.str "t"))
    ∧ (∃ msg, expandMapped c6TestCase (.fcons "_override" (.int 3) .fnil)
        = .error (.agConfigError msg))
    ∧ (∃ msg, expandMapped c6TestCase
        (.fcons "_override"
          (.map (.fcons "name" (.str "n") (.fcons "nope" (.str "x") .fnil))) .fnil)
          = .error (.agConfigError msg)) := by
  refine ⟨?_, ?_, ?_⟩
  · have h := do_repeat_override_spec.2.2.2.2.2.1 c6TestCase c6Override "cmd"
      (.str "echo override") (.str "old") rfl rfl
    have hrepl : deepMergeVal (.str "old") (.str "echo override") = .str "echo override" :=
      do_repeat_override_spec.2.2.2.1 (.str "old") (.str "echo override") (by intro n; simp)
    refine ⟨h.1, ?_, ?_⟩
    · rw [h.2.1, hrepl]
    · rw [h.2.2 "name" (by simp)]
      rfl
  · exact do_repeat_override_spec.2.2.2.2.2.2.1 c6TestCase _ (.int 3) rfl (by intro e; simp)
  · exact do_repeat_override_spec.2.2.2.2.2.2.2 c6TestCase _
      (.fcons "name" (.str "n") (.fcons "nope" (.str "x") .fnil)) "nope" rfl rfl rfl

end AGContrib
